import Mathlib

/-!
Shallow embedding of the Harptos calendar core of `src/app.py`
(Anomanderiz/Harptos-Horology).

Python integers are modelled as `Int`; dicts `{"year": y, "month": m,
"day": d}` as the structure `HarptosDate`.  Each definition mirrors one
function of `src/app.py`; names follow the source.
-/

set_option maxHeartbeats 1000000

namespace Harptos

/-- `HarptosDate` — the `{"year": ..., "month": ..., "day": ...}` dict of
`app.py` (see `DEFAULT_CURRENT`, `advance_one`, `sanitize_harptos_date`). -/
@[ext]
structure HarptosDate where
  year : Int
  month : Int
  day : Int
deriving DecidableEq, Repr

/-- `DEFAULT_CURRENT = {"year": 1492, "month": 1, "day": 1}` (app.py line 60). -/
def DEFAULT_CURRENT : HarptosDate := ⟨1492, 1, 1⟩

/-- Membership in the `FESTIVALS` dict of app.py: its keys are
`{1, 4, 7, 9, 11}` (app.py lines 53-59); `m in FESTIVALS` tests key
membership. -/
def isFestivalMonth (m : Int) : Prop :=
  m = 1 ∨ m = 4 ∨ m = 7 ∨ m = 9 ∨ m = 11

instance (m : Int) : Decidable (isFestivalMonth m) := by
  unfold isFestivalMonth; infer_instance

/-- `festivals_before(month) = sum(1 for m in FESTIVALS if m < month)`
(app.py lines 372-373). -/
def festivals_before (month : Int) : Int :=
  (if 1 < month then 1 else 0) + (if 4 < month then 1 else 0) +
    (if 7 < month then 1 else 0) + (if 9 < month then 1 else 0) +
    (if 11 < month then 1 else 0)

/-- `harptos_ordinal(y, m, d)` (app.py lines 375-380):
`base = y*365`; `before = (m-1)*30 + festivals_before(m)`;
`day_index = before + (30 if (d == 31 and m in FESTIVALS) else d - 1)`. -/
def harptos_ordinal (y m d : Int) : Int :=
  y * 365 + ((m - 1) * 30 + festivals_before m) +
    (if d = 31 ∧ isFestivalMonth m then 30 else d - 1)

/-- `advance_one(h)` (app.py lines 388-399), with the same branch order as
the Python source (`d == 31`, then `1 <= d < 30`, then `d == 30`, else the
fallback `{"year": y, "month": 1, "day": 1}`).  Python's `y + (m == 12)`
adds the boolean as 0/1. -/
def advance_one (h : HarptosDate) : HarptosDate :=
  let y := h.year
  let m := h.month
  let d := h.day
  if d = 31 then
    ⟨y + (if m = 12 then 1 else 0), if m = 12 then 1 else m + 1, 1⟩
  else if 1 ≤ d ∧ d < 30 then
    ⟨y, m, d + 1⟩
  else if d = 30 then
    if isFestivalMonth m then ⟨y, m, 31⟩
    else ⟨y + (if m = 12 then 1 else 0), if m = 12 then 1 else m + 1, 1⟩
  else
    ⟨y, 1, 1⟩

/-- `sanitize_harptos_date(y, m, d)` (app.py lines 401-405):
clamp the month to `[1, 12]`, the day to `[1, 31 or 30]`, pass the year
through. -/
def sanitize_harptos_date (y m d : Int) : HarptosDate :=
  let m' := max 1 (min 12 m)
  let max_day : Int := if isFestivalMonth m' then 31 else 30
  ⟨y, m', max 1 (min max_day d)⟩

/-- A structurally valid Harptos date: the invariant of the spec's
`HarptosDate` data model (day ≤ 30 ordinarily, day 31 only in festival
months); exactly the image of `sanitize_harptos_date`. -/
def Valid (h : HarptosDate) : Prop :=
  1 ≤ h.month ∧ h.month ≤ 12 ∧ 1 ≤ h.day ∧
    (h.day ≤ 30 ∨ (h.day = 31 ∧ isFestivalMonth h.month))

instance (h : HarptosDate) : Decidable (Valid h) := by
  unfold Valid; infer_instance

/-- Chronological precedence of valid dates: lexicographic on
(year, month, day); the festival day 31 of month M sits after day 30 of
month M (same month, larger day) and before day 1 of month M+1. -/
def precedes (a b : HarptosDate) : Prop :=
  a.year < b.year ∨
    (a.year = b.year ∧
      (a.month < b.month ∨ (a.month = b.month ∧ a.day < b.day)))

instance (a b : HarptosDate) : Decidable (precedes a b) := by
  unfold precedes; infer_instance

/-! ## The sync operation (app.py lines 794-827)

`sync_global_current_date` first asks the persistence collaborator via
`db.sync_current_date`; when that returns no dict it proceeds with the
persisted `current_date` state blob, the persisted `last_checked` real
date and today's real date (lines 805-827).  The claims model exactly that
function of the three persisted inputs.  Real-world dates are modelled as
integer day numbers, so `(today - last).days` becomes plain subtraction. -/

/-- The persisted `current_date` state blob as `sync_global_current_date`
sees it: not a dict at all, a dict whose `year`/`month`/`day` entries fail
`int(...)` (the `except` branch of app.py lines 807-810), or a dict with
three readable integers. -/
inductive CurrentDateBlob where
  | notDict : CurrentDateBlob
  | malformedDict : CurrentDateBlob
  | dict (year month day : Int) : CurrentDateBlob
deriving DecidableEq, Repr

/-- app.py lines 806-812: a readable dict is sanitized, anything else
falls back to `dict(DEFAULT_CURRENT)`. -/
def read_current_date : CurrentDateBlob → HarptosDate
  | CurrentDateBlob.dict y m d => sanitize_harptos_date y m d
  | _ => DEFAULT_CURRENT

/-- The `for _ in range(days_elapsed): h = advance_one(h)` loop of app.py
lines 822-823. -/
def advance_loop : Nat → HarptosDate → HarptosDate
  | 0, h => h
  | n + 1, h => advance_loop n (advance_one h)

/-- app.py lines 805-825, as a function of the persisted `current_date`
blob, the persisted `last_checked` value (`none` when absent or not an
ISO date string, in which case the code uses `today`), and today's real
date: `days_elapsed = max(0, (today - last).days)`, then the advancement
loop. -/
def sync_global_current_date (st : CurrentDateBlob) (rawLast : Option Int)
    (today : Int) : HarptosDate :=
  let h := read_current_date st
  let last := rawLast.getD today
  let days_elapsed := (max 0 (today - last)).toNat
  advance_loop days_elapsed h

/-! ## Timeline events and the sort in `build_timeline_ui`
(app.py lines 861-874) -/

/-- A normalized event row as `build_timeline_ui` receives it (after
`reload_events` normalization: integer date fields, string id/title/notes). -/
structure Event where
  id : String
  year : Int
  month : Int
  day : Int
  title : String
  notes : String
  real_world_date : Option String
deriving DecidableEq, Repr

/-- ASCII model of Python's regex class `\s`. -/
def pySpace (c : Char) : Bool :=
  c = ' ' || c = '\t' || c = '\n' || c = '\r' || c = '\x0b' || c = '\x0c'

/-- ASCII model of Python's regex class `\d`. -/
def pyDigit (c : Char) : Bool :=
  '0' ≤ c && c ≤ '9'

/-- ASCII model of Python's regex class `\w` (letters, digits, underscore). -/
def pyWord (c : Char) : Bool :=
  c.isAlpha || pyDigit c || c = '_'

/-- Numeric value of a digit string, as Python's `int` reads one. -/
def digitsVal (ds : List Char) : Int :=
  ds.foldl (fun a c => a * 10 + ((c.toNat : Int) - 48)) 0

/-- ASCII model of Python's `str.lower()` on one character. -/
def lower_char (c : Char) : Char :=
  if 'A' ≤ c ∧ c ≤ 'Z' then Char.ofNat (c.toNat + 32) else c

/-- ASCII model of Python's `str.lower()`. -/
def lower_str (s : String) : String :=
  String.mk (s.toList.map lower_char)

/-- Python's `str.strip()`: drop leading and trailing whitespace. -/
def pyStrip (cs : List Char) : List Char :=
  ((cs.dropWhile pySpace).reverse.dropWhile pySpace).reverse

/-- Python's `str.strip()` on strings. -/
def strip_str (s : String) : String :=
  String.mk (pyStrip s.toList)

/-- Splitting on a separator character, keeping empty pieces, as Python's
`str.split(sep)` does. -/
def split_char_go (sep : Char) (cur : List Char) :
    List Char → List (List Char)
  | [] => [cur]
  | c :: rest =>
    if c = sep then cur :: split_char_go sep [] rest
    else split_char_go sep (cur ++ [c]) rest

/-- Python's `str.split(sep)` for a one-character separator. -/
def split_char (sep : Char) (cs : List Char) : List (List Char) :=
  split_char_go sep [] cs

/-- `re.search(r'#\s*(\d+)\b', title)` of `_priority_from_title`
(app.py line 385): scan left to right; at a `#`, skip whitespace, read a
maximal digit run; succeed when the run is nonempty and followed by a word
boundary (end of string or a non-word character), else resume the scan one
character further on.  (Backtracking inside `\s*(\d+)\b` can never turn a
failed start position into a match, since a boundary never falls between
two digits.) -/
def hashTokenValue : List Char → Option Int
  | [] => none
  | c :: rest =>
    if c = '#' then
      let afterSpace := rest.dropWhile pySpace
      let ds := afterSpace.takeWhile pyDigit
      let post := afterSpace.drop ds.length
      let boundary : Bool :=
        match post with
        | [] => true
        | p :: _ => !(pyWord p)
      if !ds.isEmpty && boundary then some (digitsVal ds)
      else hashTokenValue rest
    else hashTokenValue rest

/-- `_priority_from_title(title)` (app.py lines 382-386): empty titles and
titles with no `#<digits>` match get the sentinel `10_000_000`; otherwise
the integer value of the first match's digit group. -/
def _priority_from_title (title : String) : Int :=
  if title = "" then 10000000
  else
    match hashTokenValue title.toList with
    | some n => n
    | none => 10000000

/-- Python's `<` on strings: lexicographic comparison of the code-point
sequences. -/
def str_lt (a b : List Char) : Bool :=
  match a, b with
  | [], [] => false
  | [], _ :: _ => true
  | _ :: _, [] => false
  | c :: cs, d :: ds =>
    if c < d then true else if d < c then false else str_lt cs ds

/-- The Python sort key tuple of app.py lines 868-873:
`(harptos_ordinal(y, m, d), _priority_from_title(title), title.lower(), id)`. -/
def timeline_key (r : Event) : Int × Int × String × String :=
  (harptos_ordinal r.year r.month r.day, _priority_from_title r.title,
    lower_str r.title, r.id)

/-- Python's `<` on the sort-key tuples: lexicographic, each component
compared with its own `<`. -/
def key_lt (a b : Int × Int × String × String) : Bool :=
  decide (a.1 < b.1) ||
    (decide (a.1 = b.1) &&
      (decide (a.2.1 < b.2.1) ||
        (decide (a.2.1 = b.2.1) &&
          (str_lt a.2.2.1.toList b.2.2.1.toList ||
            (decide (a.2.2.1 = b.2.2.1) &&
              str_lt a.2.2.2.toList b.2.2.2.toList)))))

/-- The non-strict comparison a stable sort driven by the key's `<` uses:
row `a` may stay before row `b` unless `b`'s key is strictly smaller. -/
def le_event (a b : Event) : Bool :=
  ! key_lt (timeline_key b) (timeline_key a)

/-- The `rows_sorted = sorted(rows, key=...)` step of `build_timeline_ui`
(app.py lines 866-874); Python's `sorted` is a stable sort by the key,
modelled by a stable merge sort under `le_event`. -/
def build_timeline_sorted (rows : List Event) : List Event :=
  rows.mergeSort le_event

/-! ## The session-notes parser (app.py lines 407-561)

Python strings are modelled as Lean `String`s restricted to ASCII text
with `\n` line separators (all claim inputs are of that shape):
`str.splitlines` becomes a split on `"\n"`, `str.strip()` becomes
`String.trim`, `str.lower()` becomes `String.toLower`. -/

/-- The string `"\n"`, used by `"\n".join(...)` and as the line separator. -/
def NL : String := "\n"

/-- The literal `"(Untitled)"` fallback title of app.py. -/
def UNTITLED : String := "(Untitled)"

/-- The newline character. -/
def NLC : Char := '\n'

/-- `str.splitlines()` for `\n`-separated text: split on newlines, with no
empty final piece after a trailing newline and `[]` for `""`. -/
def splitlinesLF (s : String) : List String :=
  let parts := split_char NLC s.toList
  (if parts.getLast? = some [] then parts.dropLast else parts).map String.mk

/-- `line.rstrip("\r")` (app.py line 475). -/
def stripCR (s : String) : String :=
  String.mk ((s.toList.reverse.dropWhile (fun c => c = '\r')).reverse)

/-- Leading `\s*` of the line regexes. -/
def dropSpacesL (cs : List Char) : List Char :=
  cs.dropWhile pySpace

/-- Matching `^\s*\[event\]\s*$` resp. `^\s*\[/event\]\s*$`
case-insensitively (app.py lines 428, 434): the whitespace-stripped,
lowercased line equals the marker. -/
def is_marker_line (marker : String) (line : String) : Bool :=
  lower_str (strip_str line) = marker

/-- The `[Event]` opening marker text. -/
def EVENT_OPEN : String := "[event]"

/-- The `[/Event]` closing marker text. -/
def EVENT_CLOSE : String := "[/event]"

/-- The block-splitting loop of app.py lines 424-441: an opening marker
flushes a nonempty open block and starts a new one, a closing marker
flushes the open block, other lines accumulate while inside a block; text
outside blocks and an unterminated trailing block are dropped.  Blocks are
stored as `"\n".join(cur_lines)`. -/
def extract_blocks (text : String) : List String :=
  let step := fun (st : List String × List String × Bool) (raw_line : String) =>
    let blocks := st.1
    let cur := st.2.1
    let in_block := st.2.2
    if is_marker_line EVENT_OPEN raw_line then
      ((if in_block ∧ cur ≠ [] then blocks ++ [String.intercalate NL cur]
        else blocks), [], true)
    else if is_marker_line EVENT_CLOSE raw_line then
      ((if in_block then blocks ++ [String.intercalate NL cur] else blocks),
        [], false)
    else if in_block then (blocks, cur ++ [raw_line], in_block)
    else (blocks, cur, in_block)
  ((splitlinesLF text).foldl step ([], [], false)).1

/-- Case-insensitive match of a keyword against the head of the line. -/
def matchKeyword : List Char → List Char → Option (List Char)
  | [], rest => some rest
  | _, [] => none
  | k :: ks, c :: cs => if lower_char c = k then matchKeyword ks cs else none

/-- The regex `^\s*title\s*:\s*(.*)$` (resp. `notes`) of app.py lines 477
and 488, returning the group after the colon with its leading whitespace
consumed by the greedy `\s*`. -/
def match_label_line (label : String) (line : String) : Option String :=
  match matchKeyword label.toList (dropSpacesL line.toList) with
  | none => none
  | some rest =>
    match dropSpacesL rest with
    | ':' :: tail => some (String.mk (tail.dropWhile pySpace))
    | _ => none

/-- The label `"title"`. -/
def TITLE_KEY : String := "title"

/-- The label `"notes"`. -/
def NOTES_KEY : String := "notes"

/-- The character class `[A-Za-z _-]` of the key/value regex. -/
def isKeyChar (c : Char) : Bool :=
  c.isAlpha || c = ' ' || c = '_' || c = '-'

/-- The regex `^\s*([A-Za-z _-]+)\s*:\s*(.*?)\s*$` of app.py line 504:
leading whitespace, a nonempty run of key characters, whitespace, a colon,
and the rest of the line as the raw value (the code strips it afterwards). -/
def match_kv_line (line : String) : Option (String × String) :=
  let l1 := dropSpacesL line.toList
  let keyChars := l1.takeWhile isKeyChar
  if keyChars = [] then none
  else
    match dropSpacesL (l1.drop keyChars.length) with
    | ':' :: tail => some (String.mk keyChars, String.mk tail)
    | _ => none

/-- `key.strip().lower().replace("-", "_").replace(" ", "_")`
(app.py line 507). -/
def normalize_key (k : String) : String :=
  String.mk ((lower_str (strip_str k)).toList.map
    (fun c => if c = '-' ∨ c = ' ' then '_' else c))

/-- Python `int(val)` on an already-stripped string, restricted to ASCII:
an optional sign followed by a nonempty digit run. -/
def parse_int_value (s : String) : Option Int :=
  match s.toList with
  | '+' :: ds => if ds ≠ [] ∧ ds.all pyDigit then some (digitsVal ds) else none
  | '-' :: ds => if ds ≠ [] ∧ ds.all pyDigit then some (-(digitsVal ds)) else none
  | ds => if ds ≠ [] ∧ ds.all pyDigit then some (digitsVal ds) else none

/-- The `MONTHS` table of app.py lines 38-51. -/
def MONTHS : List String :=
  ["Hammer, Deepwinter",
   "Alturiak, The Claw of Winter",
   "Ches, The Claw of the Sunsets",
   "Tarsakh, The Claw of the Storms",
   "Mirtul, The Melting",
   "Kythorn, The Time of Flowers",
   "Flamerule, Summertide",
   "Eleasis, Highsun",
   "Eleint, The Fading",
   "Marpenoth, Leaffall",
   "Uktar, The Rotting",
   "Nightal, The Drawing Down"]

/-- The month-name loop of `parse_month_value` (app.py lines 416-420):
compare the lowercased input against `label.lower().strip()` and
`label.split(",")[0].strip().lower()`, month indices starting at 1. -/
def find_month (norm : String) : Nat → List String → Option Int
  | _, [] => none
  | i, label :: rest =>
    let full := strip_str (lower_str label)
    let short :=
      lower_str (strip_str (String.mk
        (((split_char ',' label.toList).headD label.toList))))
    if norm = full ∨ norm = short then some (i : Int)
    else find_month norm (i + 1) rest

/-- `parse_month_value(raw)` (app.py lines 407-421): a digit string must
be a number 1..12, otherwise the value must match a month name or short
name case-insensitively. -/
def parse_month_value (raw : String) : Option Int :=
  let v := strip_str raw
  if v = "" then none
  else if v.toList ≠ [] ∧ v.toList.all pyDigit then
    let m := digitsVal v.toList
    if 1 ≤ m ∧ m ≤ 12 then some m else none
  else find_month (lower_str v) 1 MONTHS

/-- Day count of a Gregorian month, for `date.fromisoformat` validation. -/
def days_in_gregorian_month (y m : Int) : Int :=
  if m = 2 then
    if (y % 4 = 0 ∧ y % 100 ≠ 0) ∨ y % 400 = 0 then 29 else 28
  else if m = 4 ∨ m = 6 ∨ m = 9 ∨ m = 11 then 30 else 31

/-- `date.fromisoformat(val)` succeeding, modelled for the documented
`YYYY-MM-DD` shape: ten characters, digits in the date positions, hyphens
between, a real Gregorian calendar date with year ≥ 1. -/
def is_valid_iso_date (s : String) : Bool :=
  match s.toList with
  | [y1, y2, y3, y4, h1, m1, m2, h2, d1, d2] =>
    if h1 = '-' && h2 = '-' && [y1, y2, y3, y4, m1, m2, d1, d2].all pyDigit then
      let y := digitsVal [y1, y2, y3, y4]
      let m := digitsVal [m1, m2]
      let d := digitsVal [d1, d2]
      decide (1 ≤ y ∧ 1 ≤ m ∧ m ≤ 12 ∧ 1 ≤ d ∧ d ≤ days_in_gregorian_month y m)
    else false
  | _ => false

/-- The in-progress `cur_item` dict of app.py lines 456-501. -/
structure CurItem where
  title : String
  notes_lines : List String
  real_world_date : Option String
deriving DecidableEq, Repr

/-- A finished titled sub-item of a block (title/notes/real-world date;
the block's date is attached at the end). -/
structure NoteItem where
  title : String
  notes : String
  real_world_date : Option String
deriving DecidableEq, Repr

/-- A parsed event draft, the element type of the list
`parse_session_notes_text` returns. -/
structure EventDraft where
  year : Int
  month : Int
  day : Int
  title : String
  notes : String
  real_world_date : Option String
deriving DecidableEq, Repr

/-- `_finish_item()` (app.py lines 460-472): flush the in-progress item,
replacing an empty title by `"(Untitled)"`, stripping it, and joining the
accumulated notes lines. -/
def finish_item (items : List NoteItem) (cur : Option CurItem) : List NoteItem :=
  match cur with
  | none => items
  | some c =>
    let t := if c.title = "" then UNTITLED else c.title
    items ++ [⟨strip_str t, strip_str (String.intercalate NL c.notes_lines),
      c.real_world_date⟩]

/-- The per-block mutable state of app.py lines 449-458, plus the shared
`errors` list the block appends to. -/
structure BlockState where
  base_year : Int
  base_month : Int
  base_day : Int
  base_real_world_date : Option String
  has_fatal_error : Bool
  items : List NoteItem
  cur_item : Option CurItem
  reading_notes : Bool
  errors : List String
deriving DecidableEq, Repr

/-- The state at the top of each block iteration (app.py lines 449-458). -/
def init_block_state : BlockState :=
  { base_year := DEFAULT_CURRENT.year
    base_month := DEFAULT_CURRENT.month
    base_day := DEFAULT_CURRENT.day
    base_real_world_date := none
    has_fatal_error := false
    items := []
    cur_item := none
    reading_notes := false
    errors := [] }

/-- The normalized key `"year"`. -/
def KEY_YEAR : String := "year"

/-- The normalized key `"month"`. -/
def KEY_MONTH : String := "month"

/-- The normalized key `"day"`. -/
def KEY_DAY : String := "day"

/-- The normalized key `"real_world_date"`. -/
def KEY_RWD : String := "real_world_date"

/-- The normalized key `"real_date"`. -/
def KEY_RD : String := "real_date"

/-- The normalized key `"date"`. -/
def KEY_DATE : String := "date"

/-- `f"Block {idx}: invalid year '{val}'."` and its month/day analogues
(app.py lines 514, 519, 527); `\x27` is the quote around the value. -/
def err_invalid (idx : Nat) (what : String) (val : String) : String :=
  "Block " ++ toString idx ++ ": invalid " ++ what ++ " \x27" ++ val ++ "\x27."

/-- `f"Block {idx}: real-world date must be YYYY-MM-DD."` (app.py line 538). -/
def err_bad_rwd (idx : Nat) : String :=
  "Block " ++ toString idx ++ ": real-world date must be YYYY-MM-DD."

/-- The word `"year"` inside the invalid-year diagnostic. -/
def YEAR_WORD : String := "year"

/-- The word `"month"` inside the invalid-month diagnostic. -/
def MONTH_WORD : String := "month"

/-- The word `"day"` inside the invalid-day diagnostic. -/
def DAY_WORD : String := "day"

/-- One iteration of the per-line loop of app.py lines 474-538, in the
source's branch order: the `Title:` regex, the `Notes:` regex, the
`reading_notes` continuation, then the generic `key: value` dispatch on
`year` / `month` / `day` / `real_world_date`-`real_date`-`date`. -/
def block_line_step (idx : Nat) (st : BlockState) (raw_line : String) :
    BlockState :=
  let line := stripCR raw_line
  if let some g := match_label_line TITLE_KEY line then
    { st with
      items := finish_item st.items st.cur_item
      cur_item := some ⟨strip_str g, [], st.base_real_world_date⟩
      reading_notes := false }
  else if let some g := match_label_line NOTES_KEY line then
    let cur0 := st.cur_item.getD ⟨UNTITLED, [], st.base_real_world_date⟩
    let first := strip_str g
    let cur1 :=
      if first = "" then cur0
      else { cur0 with notes_lines := cur0.notes_lines ++ [first] }
    { st with cur_item := some cur1, reading_notes := true }
  else if st.reading_notes then
    let cur0 := st.cur_item.getD ⟨UNTITLED, [], st.base_real_world_date⟩
    { st with
      cur_item := some { cur0 with notes_lines := cur0.notes_lines ++ [line] } }
  else if let some kv := match_kv_line line then
    let key := normalize_key kv.1
    let val := strip_str kv.2
    if key = KEY_YEAR then
      match parse_int_value val with
      | some n => { st with base_year := n }
      | none =>
        { st with errors := st.errors ++ [err_invalid idx YEAR_WORD val]
                  has_fatal_error := true }
    else if key = KEY_MONTH then
      match parse_month_value val with
      | some m => { st with base_month := m }
      | none =>
        { st with errors := st.errors ++ [err_invalid idx MONTH_WORD val]
                  has_fatal_error := true }
    else if key = KEY_DAY then
      match parse_int_value val with
      | some n => { st with base_day := n }
      | none =>
        { st with errors := st.errors ++ [err_invalid idx DAY_WORD val]
                  has_fatal_error := true }
    else if key = KEY_RWD ∨ key = KEY_RD ∨ key = KEY_DATE then
      if val = "" then st
      else if is_valid_iso_date val then
        match st.cur_item with
        | some c =>
          { st with cur_item := some { c with real_world_date := some val } }
        | none => { st with base_real_world_date := some val }
      else { st with errors := st.errors ++ [err_bad_rwd idx] }
    else st
  else st

/-- Run the per-line loop over a block's lines and apply the trailing
`_finish_item()` of app.py line 540. -/
def process_block (idx : Nat) (block : String) : BlockState :=
  let st := (splitlinesLF block).foldl (block_line_step idx) init_block_state
  { st with items := finish_item st.items st.cur_item, cur_item := none }

/-- The tail of each block iteration (app.py lines 542-559): a block with
a fatal year/month/day error contributes no drafts; a block with no items
gets one untitled item; the block date is sanitized once and attached to
every item. -/
def block_drafts (idx : Nat) (block : String) : List EventDraft :=
  let st := process_block idx block
  if st.has_fatal_error then []
  else
    let items :=
      if st.items = [] then [⟨UNTITLED, "", st.base_real_world_date⟩]
      else st.items
    let h := sanitize_harptos_date st.base_year st.base_month st.base_day
    items.map (fun it => ⟨h.year, h.month, h.day, it.title, it.notes,
      it.real_world_date⟩)

/-- The diagnostics a block appends to the shared `errors` list. -/
def block_errors (idx : Nat) (block : String) : List String :=
  (process_block idx block).errors

/-- The `"No [Event]...[/Event] blocks found."` diagnostic of app.py
line 444. -/
def NO_BLOCKS_ERR : String := "No [Event]...[/Event] blocks found."

/-- `parse_session_notes_text(text)` (app.py lines 423-561): split the
text into blocks; with no blocks return the single structural diagnostic;
otherwise process the blocks in order (`enumerate(blocks, start=1)`),
concatenating each block's drafts and diagnostics. -/
def parse_session_notes_text (text : String) :
    List EventDraft × List String :=
  let blocks := extract_blocks text
  if blocks = [] then ([], [NO_BLOCKS_ERR])
  else
    (List.enumFrom 1 blocks).foldl
      (fun acc p => (acc.1 ++ block_drafts p.1 p.2, acc.2 ++ block_errors p.1 p.2))
      ([], [])

/-- `(line matches the key/value regex with key year, month or day)`,
the condition under which app.py lines 510-527 can touch the block date
or set the fatal flag. -/
def is_ymd_key_line (raw_line : String) : Bool :=
  match match_kv_line (stripCR raw_line) with
  | some kv =>
    normalize_key kv.1 == KEY_YEAR || normalize_key kv.1 == KEY_MONTH ||
      normalize_key kv.1 == KEY_DAY
  | none => false

/-- Concatenation of the images of the list elements, used to state how
`parse_session_notes_text` composes per-block results. -/
def collect {α β : Type} (f : α → List β) : List α → List β
  | [] => []
  | a :: as => f a ++ collect f as

/-- Statement-side notion for the priority claims: the four segments of a
`#<digits>` token occurrence — whitespace between the `#` and the digits,
a nonempty digit run, and a word boundary after it. -/
def HashTokenParts (sp ds post : List Char) : Prop :=
  (∀ c ∈ sp, pySpace c = true) ∧ ds ≠ [] ∧ (∀ c ∈ ds, pyDigit c = true) ∧
    (match post with
     | [] => True
     | p :: _ => pyWord p = false)

/-- Statement-side notion for the priority claims: the character list
contains a `#<digits>` token somewhere (a `#`, optional whitespace, a
nonempty digit run, then a word boundary). -/
def contains_hash_token (cs : List Char) : Prop :=
  ∃ pre sp ds post, cs = pre ++ '#' :: (sp ++ ds ++ post) ∧
    HashTokenParts sp ds post

/-! ## Theorems -/

/-- Closed-form facts about `festivals_before`, in a shape `omega` can
consume while treating `festivals_before m` as an atom. -/
theorem fb_facts (m : Int) :
    (m ≤ 1 → festivals_before m = 0) ∧
    (1 < m → m ≤ 4 → festivals_before m = 1) ∧
    (4 < m → m ≤ 7 → festivals_before m = 2) ∧
    (7 < m → m ≤ 9 → festivals_before m = 3) ∧
    (9 < m → m ≤ 11 → festivals_before m = 4) ∧
    (11 < m → festivals_before m = 5) := by
  unfold festivals_before
  split_ifs <;> omega

/-- Advancing a valid date yields a valid date. -/
theorem advance_valid {h : HarptosDate} (hV : Valid h) :
    Valid (advance_one h) := by
  obtain ⟨y, m, d⟩ := h
  simp only [Valid, isFestivalMonth, advance_one] at *
  split_ifs <;> simp_all <;> omega

/-- Advancing a valid date moves strictly forward in chronological order. -/
theorem advance_precedes {h : HarptosDate} (hV : Valid h) :
    precedes h (advance_one h) := by
  obtain ⟨y, m, d⟩ := h
  simp only [Valid, isFestivalMonth, advance_one, precedes] at *
  split_ifs <;> simp_all <;> omega

/-- The day-index branch of `harptos_ordinal` for days at most 30. -/
theorem day_index_low {d : Int} (m : Int) (h : d ≤ 30) :
    (if d = 31 ∧ isFestivalMonth m then (30 : Int) else d - 1) = d - 1 :=
  if_neg (fun hc => by omega)

/-- The day-index branch of `harptos_ordinal` for the festival day 31. -/
theorem day_index_high {d m : Int} (h31 : d = 31) (hf : isFestivalMonth m) :
    (if d = 31 ∧ isFestivalMonth m then (30 : Int) else d - 1) = 30 :=
  if_pos ⟨h31, hf⟩

/-- `harptos_ordinal` reflects chronological order on valid dates. -/
theorem ordinal_lt_iff {A B : HarptosDate} (hA : Valid A) (hB : Valid B) :
    harptos_ordinal A.year A.month A.day <
      harptos_ordinal B.year B.month B.day ↔ precedes A B := by
  obtain ⟨ya, ma, da⟩ := A
  obtain ⟨yb, mb, db⟩ := B
  obtain ⟨ha1, ha2, ha3, ha4⟩ := hA
  obtain ⟨hb1, hb2, hb3, hb4⟩ := hB
  have hfa := fb_facts ma
  have hfb := fb_facts mb
  simp only at ha1 ha2 ha3 ha4 hb1 hb2 hb3 hb4
  simp only [harptos_ordinal, precedes]
  rcases ha4 with ha4 | ⟨ha31, haf⟩ <;> rcases hb4 with hb4 | ⟨hb31, hbf⟩
  · rw [day_index_low ma ha4, day_index_low mb hb4]
    omega
  · rw [day_index_low ma ha4, day_index_high hb31 hbf]
    have hbf5 : mb = 1 ∨ mb = 4 ∨ mb = 7 ∨ mb = 9 ∨ mb = 11 := hbf
    omega
  · rw [day_index_high ha31 haf, day_index_low mb hb4]
    have haf5 : ma = 1 ∨ ma = 4 ∨ ma = 7 ∨ ma = 9 ∨ ma = 11 := haf
    omega
  · rw [day_index_high ha31 haf, day_index_high hb31 hbf]
    have haf5 : ma = 1 ∨ ma = 4 ∨ ma = 7 ∨ ma = 9 ∨ ma = 11 := haf
    have hbf5 : mb = 1 ∨ mb = 4 ∨ mb = 7 ∨ mb = 9 ∨ mb = 11 := hbf
    omega

/-- C1.  `advance_one` implements the intercalary successor state machine
on valid dates: days 1..29 step to the next day of the same month; day 30
of a non-festival month steps to day 1 of the next month, wrapping the
year after month 12; day 30 of a festival month steps to the festival day
31; day 31 steps to day 1 of the next month; and in particular
`advance_one({1492,1,30}) = {1492,1,31}` and
`advance_one({1492,1,31}) = {1492,2,1}`. -/
theorem advance_one_state_machine :
    (∀ h : HarptosDate, Valid h →
      (1 ≤ h.day ∧ h.day ≤ 29 →
        advance_one h = ⟨h.year, h.month, h.day + 1⟩) ∧
      (h.day = 30 → ¬ isFestivalMonth h.month →
        advance_one h =
          ⟨h.year + (if h.month = 12 then 1 else 0),
            if h.month = 12 then 1 else h.month + 1, 1⟩) ∧
      (h.day = 30 → isFestivalMonth h.month →
        advance_one h = ⟨h.year, h.month, 31⟩) ∧
      (h.day = 31 →
        advance_one h =
          ⟨h.year + (if h.month = 12 then 1 else 0),
            if h.month = 12 then 1 else h.month + 1, 1⟩)) ∧
    advance_one ⟨1492, 1, 30⟩ = ⟨1492, 1, 31⟩ ∧
    advance_one ⟨1492, 1, 31⟩ = ⟨1492, 2, 1⟩ := by
  refine ⟨?_, by decide, by decide⟩
  rintro ⟨y, m, d⟩ hV
  simp only [Valid, isFestivalMonth] at hV
  refine ⟨?_, ?_, ?_, ?_⟩ <;>
    · intros
      simp only [advance_one, isFestivalMonth] at *
      split_ifs <;> first | rfl | (exfalso; omega)

/-- Witness for C1: a concrete mid-month step. -/
theorem advance_one_state_machine_witness :
    advance_one ⟨1492, 5, 10⟩ = ⟨1492, 5, 11⟩ :=
  (advance_one_state_machine.1 ⟨1492, 5, 10⟩ (by decide)).1 (by decide)

/-- C2.  `harptos_ordinal` is an order embedding of the calendar: on valid
dates `ordinal(A) < ordinal(B)` iff A chronologically precedes B (festival
day 31 of month M immediately after day 30 of month M and before day 1 of
month M+1, which is the lexicographic order `precedes`), and it is
strictly monotone along the `advance_one` successor chain. -/
theorem harptos_ordinal_order_embedding :
    (∀ A B : HarptosDate, Valid A → Valid B →
      (harptos_ordinal A.year A.month A.day <
        harptos_ordinal B.year B.month B.day ↔ precedes A B)) ∧
    (∀ x : HarptosDate, Valid x →
      harptos_ordinal x.year x.month x.day <
        harptos_ordinal (advance_one x).year (advance_one x).month
          (advance_one x).day) :=
  ⟨fun _ _ hA hB => ordinal_lt_iff hA hB,
   fun _ hx => (ordinal_lt_iff hx (advance_valid hx)).mpr (advance_precedes hx)⟩

/-- Witness for C2: the festival day sits strictly between day 30 and the
next month's day 1 in ordinal order. -/
theorem harptos_ordinal_order_embedding_witness :
    harptos_ordinal 1492 1 30 < harptos_ordinal 1492 1 31 ∧
      harptos_ordinal 1492 1 31 < harptos_ordinal 1492 2 1 :=
  ⟨(harptos_ordinal_order_embedding.1 ⟨1492, 1, 30⟩ ⟨1492, 1, 31⟩
      (by decide) (by decide)).mpr (by decide),
   harptos_ordinal_order_embedding.2 ⟨1492, 1, 31⟩ (by decide)⟩

/-- C3.  `sanitize_harptos_date` is idempotent: applying it to the
components of its own output changes nothing. -/
theorem sanitize_harptos_date_idempotent (y m d : Int) :
    sanitize_harptos_date (sanitize_harptos_date y m d).year
      (sanitize_harptos_date y m d).month (sanitize_harptos_date y m d).day =
      sanitize_harptos_date y m d := by
  have hm : max 1 (min 12 (max 1 (min 12 m))) = max 1 (min 12 m) := by omega
  simp only [sanitize_harptos_date, hm, HarptosDate.ext_iff]
  refine ⟨trivial, trivial, ?_⟩
  split_ifs <;> omega

/-- C4.  In a non-festival month a requested day 31 clamps to day 30 of
the same month and never wraps: `sanitize(y, m, 31) = sanitize(y, m, 30)`
for every valid non-festival month. -/
theorem sanitize_day31_clamps (y m : Int) (h1 : 1 ≤ m) (h2 : m ≤ 12)
    (h3 : ¬ isFestivalMonth m) :
    sanitize_harptos_date y m 31 = sanitize_harptos_date y m 30 := by
  have hm : max 1 (min 12 m) = m := by omega
  simp only [isFestivalMonth] at h3
  simp only [sanitize_harptos_date, hm, isFestivalMonth, HarptosDate.ext_iff]
  split_ifs <;> refine ⟨trivial, trivial, by omega⟩

/-- Witness for C4: month 2 (Alturiak) is not a festival month. -/
theorem sanitize_day31_clamps_witness :
    sanitize_harptos_date 1492 2 31 = sanitize_harptos_date 1492 2 30 :=
  sanitize_day31_clamps 1492 2 (by decide) (by decide) (by decide)

/-- The advancement loop is iteration of `advance_one`. -/
theorem advance_loop_eq_iterate (n : Nat) (h : HarptosDate) :
    advance_loop n h = advance_one^[n] h := by
  induction n generalizing h with
  | zero => rfl
  | succ k ih =>
    rw [advance_loop, ih, Function.iterate_succ_apply]

/-- C5.  The sync operation as a function of the persisted current-date
blob, the persisted last-checked real date and today's real date: an
absent or malformed current-date blob starts from the fixed default
`{1492, 1, 1}` instead of failing; a readable blob starts from its
sanitized date; the number of `advance_one` steps applied is exactly
`max(0, today - lastChecked)` real days, so a last-checked date in the
future yields the start date unchanged. -/
theorem sync_global_current_date_spec :
    (∀ (rawLast : Option Int) (today : Int),
      sync_global_current_date CurrentDateBlob.notDict rawLast today =
        advance_one^[(max 0 (today - rawLast.getD today)).toNat]
          DEFAULT_CURRENT) ∧
    (∀ (rawLast : Option Int) (today : Int),
      sync_global_current_date CurrentDateBlob.malformedDict rawLast today =
        advance_one^[(max 0 (today - rawLast.getD today)).toNat]
          DEFAULT_CURRENT) ∧
    (∀ (y m d : Int) (rawLast : Option Int) (today : Int),
      sync_global_current_date (CurrentDateBlob.dict y m d) rawLast today =
        advance_one^[(max 0 (today - rawLast.getD today)).toNat]
          (sanitize_harptos_date y m d)) ∧
    (∀ (st : CurrentDateBlob) (last today : Int), today ≤ last →
      sync_global_current_date st (some last) today = read_current_date st) := by
  refine ⟨fun rawLast today => ?_, fun rawLast today => ?_,
    fun y m d rawLast today => ?_, fun st last today hle => ?_⟩
  · exact advance_loop_eq_iterate _ _
  · exact advance_loop_eq_iterate _ _
  · exact advance_loop_eq_iterate _ _
  · show advance_loop (max 0 (today - (some last).getD today)).toNat
      (read_current_date st) = read_current_date st
    have hz : (max 0 (today - (some last).getD today)).toNat = 0 := by
      simp only [Option.getD]
      omega
    rw [hz]
    rfl

/-- Witness for C5: a last-checked date two days in the future advances
nothing. -/
theorem sync_global_current_date_spec_witness :
    sync_global_current_date CurrentDateBlob.notDict (some 105) 103 =
      read_current_date CurrentDateBlob.notDict :=
  sync_global_current_date_spec.2.2.2 CurrentDateBlob.notDict 105 103
    (by decide)

/-- `str_lt` is irreflexive. -/
theorem str_lt_irrefl : ∀ a : List Char, str_lt a a = false
  | [] => rfl
  | c :: cs => by
    simp only [str_lt, lt_irrefl, if_false]
    exact str_lt_irrefl cs

/-- `str_lt` is transitive. -/
theorem str_lt_trans (a : List Char) : ∀ b c : List Char,
    str_lt a b = true → str_lt b c = true → str_lt a c = true := by
  induction a with
  | nil =>
    intro b c hab hbc
    cases b <;> cases c <;> simp_all [str_lt]
  | cons x xs ih =>
    intro b c hab hbc
    cases b with
    | nil => simp [str_lt] at hab
    | cons y ys =>
      cases c with
      | nil => simp [str_lt] at hbc
      | cons z zs =>
        simp only [str_lt] at hab hbc ⊢
        rcases lt_trichotomy x y with hxy | rfl | hxy
        · rcases lt_trichotomy y z with hyz | rfl | hyz
          · simp [lt_trans hxy hyz]
          · simp [hxy]
          · simp [lt_asymm hyz, hyz] at hbc
        · rcases lt_trichotomy x z with hyz | rfl | hyz
          · simp [hyz]
          · simp only [lt_self_iff_false, if_false] at hab hbc ⊢
            exact ih ys zs hab hbc
          · simp [lt_asymm hyz, hyz] at hbc
        · simp [lt_asymm hxy, hxy] at hab

/-- `str_lt` is trichotomous. -/
theorem str_lt_trichot (a : List Char) : ∀ b : List Char,
    str_lt a b = true ∨ a = b ∨ str_lt b a = true := by
  induction a with
  | nil =>
    intro b
    cases b <;> simp [str_lt]
  | cons x xs ih =>
    intro b
    cases b with
    | nil => simp [str_lt]
    | cons y ys =>
      rcases lt_trichotomy x y with hxy | rfl | hxy
      · left; simp [str_lt, hxy]
      · rcases ih ys with h | rfl | h
        · left; simp [str_lt, lt_self_iff_false, h]
        · right; left; rfl
        · right; right; simp [str_lt, lt_self_iff_false, h]
      · right; right; simp [str_lt, hxy]

/-- `key_lt` is irreflexive. -/
theorem key_lt_irrefl (a : Int × Int × String × String) :
    key_lt a a = false := by
  simp [key_lt, lt_self_iff_false, str_lt_irrefl]

/-- `key_lt` is trichotomous. -/
theorem key_lt_trichot (a b : Int × Int × String × String) :
    key_lt a b = true ∨ a = b ∨ key_lt b a = true := by
  obtain ⟨a1, a2, a3, a4⟩ := a
  obtain ⟨b1, b2, b3, b4⟩ := b
  rcases lt_trichotomy a1 b1 with h1 | rfl | h1
  · left; simp [key_lt, h1]
  · rcases lt_trichotomy a2 b2 with h2 | rfl | h2
    · left; simp [key_lt, h2, lt_self_iff_false]
    · rcases str_lt_trichot a3.toList b3.toList with h3 | h3 | h3
      · have h3d : str_lt a3.data b3.data = true := h3
        left; simp [key_lt, h3d, lt_self_iff_false]
      · obtain rfl : a3 = b3 := String.toList_inj.mp h3
        rcases str_lt_trichot a4.toList b4.toList with h4 | h4 | h4
        · have h4d : str_lt a4.data b4.data = true := h4
          left; simp [key_lt, h4d, lt_self_iff_false, str_lt_irrefl]
        · obtain rfl : a4 = b4 := String.toList_inj.mp h4
          right; left; rfl
        · have h4d : str_lt b4.data a4.data = true := h4
          right; right
          simp [key_lt, h4d, lt_self_iff_false, str_lt_irrefl]
      · have h3d : str_lt b3.data a3.data = true := h3
        right; right; simp [key_lt, h3d, lt_self_iff_false]
    · right; right; simp [key_lt, h2, lt_self_iff_false]
  · right; right; simp [key_lt, h1]

/-- `key_lt` is transitive. -/
theorem key_lt_trans {a b c : Int × Int × String × String}
    (hab : key_lt a b = true) (hbc : key_lt b c = true) :
    key_lt a c = true := by
  obtain ⟨a1, a2, a3, a4⟩ := a
  obtain ⟨b1, b2, b3, b4⟩ := b
  obtain ⟨c1, c2, c3, c4⟩ := c
  simp only [key_lt, Bool.or_eq_true, Bool.and_eq_true, decide_eq_true_eq]
    at hab hbc ⊢
  rcases hab with h1 | ⟨rfl, hab⟩
  · rcases hbc with h1b | ⟨rfl, _⟩
    · exact Or.inl (lt_trans h1 h1b)
    · exact Or.inl h1
  · rcases hbc with h1b | ⟨rfl, hbc⟩
    · exact Or.inl h1b
    · refine Or.inr ⟨rfl, ?_⟩
      rcases hab with h2 | ⟨rfl, hab⟩
      · rcases hbc with h2b | ⟨rfl, _⟩
        · exact Or.inl (lt_trans h2 h2b)
        · exact Or.inl h2
      · rcases hbc with h2b | ⟨rfl, hbc⟩
        · exact Or.inl h2b
        · refine Or.inr ⟨rfl, ?_⟩
          rcases hab with h3 | ⟨rfl, hab⟩
          · rcases hbc with h3b | ⟨rfl, _⟩
            · exact Or.inl (str_lt_trans _ _ _ h3 h3b)
            · exact Or.inl h3
          · rcases hbc with h3b | ⟨rfl, hbc⟩
            · exact Or.inl h3b
            · exact Or.inr ⟨rfl, str_lt_trans _ _ _ hab hbc⟩

/-- `key_lt` is asymmetric. -/
theorem key_lt_asymm {a b : Int × Int × String × String}
    (hab : key_lt a b = true) : key_lt b a = false := by
  cases hba : key_lt b a with
  | false => rfl
  | true =>
    have := key_lt_trans hab hba
    rw [key_lt_irrefl a] at this
    exact absurd this (by simp)

/-- `le_event` is total. -/
theorem le_event_total (a b : Event) : (le_event a b || le_event b a) = true := by
  unfold le_event
  cases h1 : key_lt (timeline_key b) (timeline_key a) with
  | false => simp
  | true => simp [key_lt_asymm h1]

/-- `le_event` is transitive. -/
theorem le_event_trans (a b c : Event) (hab : le_event a b = true)
    (hbc : le_event b c = true) : le_event a c = true := by
  unfold le_event at *
  simp only [Bool.not_eq_true', Bool.not_eq_false] at hab hbc ⊢
  cases hca : key_lt (timeline_key c) (timeline_key a) with
  | false => rfl
  | true =>
    exfalso
    rcases key_lt_trichot (timeline_key a) (timeline_key b) with h | h | h
    · rw [key_lt_trans hca h] at hbc
      exact absurd hbc (by simp)
    · rw [h] at hca
      rw [hca] at hbc
      exact absurd hbc (by simp)
    · rw [h] at hab
      exact absurd hab (by simp)

/-- Keys whose date, priority and lowercased title agree compare by id. -/
theorem key_lt_of_id_lt {x y : Event} (hy : x.year = y.year)
    (hm : x.month = y.month) (hd : x.day = y.day)
    (hp : _priority_from_title x.title = _priority_from_title y.title)
    (ht : lower_str x.title = lower_str y.title)
    (hid : str_lt x.id.toList y.id.toList = true) :
    key_lt (timeline_key x) (timeline_key y) = true := by
  have hidd : str_lt x.id.data y.id.data = true := hid
  unfold timeline_key key_lt
  rw [hy, hm, hd, hp, ht]
  simp [lt_self_iff_false, str_lt_irrefl, hidd]

unseal List.merge List.mergeSort in
/-- C6 counterexample: two events with identical (year, month, day) and
identical title-derived priority whose relative sorted order is NOT
determined by their id: the sort key compares the lowercased titles before
the ids, so the event with title "alpha" and the larger id "2" sorts ahead
of the event with title "beta" and the smaller id "1", even though the
smaller id came first in the input. -/
theorem build_timeline_sorted_not_id_determined :
    (let a : Event := ⟨"2", 1492, 1, 1, "alpha", "", none⟩
     let b : Event := ⟨"1", 1492, 1, 1, "beta", "", none⟩
     a.year = b.year ∧ a.month = b.month ∧ a.day = b.day ∧
       _priority_from_title a.title = _priority_from_title b.title ∧
       str_lt b.id.toList a.id.toList = true ∧
       build_timeline_sorted [b, a] = [a, b]) := by
  decide

/-- C6 (amended).  The sort in `build_timeline_ui` is total and
deterministic — it always yields a permutation of its input, sorted under
the key comparison — and for any two events with identical
(year, month, day), identical title-derived priority AND identical
lowercased title, their relative order in the sorted output is determined
solely by their id. -/
theorem build_timeline_sorted_deterministic :
    (∀ rows : List Event,
      (build_timeline_sorted rows).Perm rows ∧
        List.Pairwise (fun a b => le_event a b = true)
          (build_timeline_sorted rows)) ∧
    (∀ (rows : List Event) (x y : Event), x ∈ rows → y ∈ rows →
      x.year = y.year → x.month = y.month → x.day = y.day →
      _priority_from_title x.title = _priority_from_title y.title →
      lower_str x.title = lower_str y.title →
      str_lt x.id.toList y.id.toList = true →
      List.indexOf x (build_timeline_sorted rows) <
        List.indexOf y (build_timeline_sorted rows)) := by
  constructor
  · intro rows
    exact ⟨List.mergeSort_perm rows le_event,
      List.sorted_mergeSort le_event_trans le_event_total rows⟩
  · intro rows x y hx hy hyr hmn hdd hp ht hid
    have hperm : (build_timeline_sorted rows).Perm rows :=
      List.mergeSort_perm rows le_event
    have hxS : x ∈ build_timeline_sorted rows := hperm.mem_iff.mpr hx
    have hyS : y ∈ build_timeline_sorted rows := hperm.mem_iff.mpr hy
    have hkey : key_lt (timeline_key x) (timeline_key y) = true :=
      key_lt_of_id_lt hyr hmn hdd hp ht hid
    have hxy : x ≠ y := by
      intro he
      rw [he, str_lt_irrefl] at hid
      exact absurd hid (by simp)
    have hsorted : List.Pairwise (fun a b => le_event a b = true)
        (build_timeline_sorted rows) :=
      List.sorted_mergeSort le_event_trans le_event_total rows
    have hix : List.indexOf x (build_timeline_sorted rows) <
        (build_timeline_sorted rows).length :=
      List.indexOf_lt_length.mpr hxS
    have hiy : List.indexOf y (build_timeline_sorted rows) <
        (build_timeline_sorted rows).length :=
      List.indexOf_lt_length.mpr hyS
    by_contra hcon
    push_neg at hcon
    rcases lt_or_eq_of_le hcon with hlt | heq
    · have hpw := (List.pairwise_iff_getElem.mp hsorted)
        (List.indexOf y (build_timeline_sorted rows))
        (List.indexOf x (build_timeline_sorted rows)) hiy hix hlt
      rw [List.getElem_indexOf hiy, List.getElem_indexOf hix] at hpw
      unfold le_event at hpw
      rw [hkey] at hpw
      exact absurd hpw (by simp)
    · have h1 : (build_timeline_sorted rows).get
          ⟨List.indexOf x (build_timeline_sorted rows), hix⟩ = x :=
        List.getElem_indexOf hix
      have h2 : (build_timeline_sorted rows).get
          ⟨List.indexOf y (build_timeline_sorted rows), hiy⟩ = y :=
        List.getElem_indexOf hiy
      have hfin : (⟨List.indexOf x (build_timeline_sorted rows), hix⟩ :
          Fin (build_timeline_sorted rows).length) =
          ⟨List.indexOf y (build_timeline_sorted rows), hiy⟩ :=
        Fin.ext heq.symm
      rw [hfin] at h1
      exact hxy (h1.symm.trans h2)

/-- Witness for C6 (amended): two same-titled events on the same day sort
by id. -/
theorem build_timeline_sorted_deterministic_witness :
    List.indexOf (⟨"a", 1492, 1, 1, "t", "", none⟩ : Event)
        (build_timeline_sorted
          [⟨"b", 1492, 1, 1, "t", "", none⟩,
           ⟨"a", 1492, 1, 1, "t", "", none⟩]) <
      List.indexOf (⟨"b", 1492, 1, 1, "t", "", none⟩ : Event)
        (build_timeline_sorted
          [⟨"b", 1492, 1, 1, "t", "", none⟩,
           ⟨"a", 1492, 1, 1, "t", "", none⟩]) :=
  build_timeline_sorted_deterministic.2
    [⟨"b", 1492, 1, 1, "t", "", none⟩, ⟨"a", 1492, 1, 1, "t", "", none⟩]
    ⟨"a", 1492, 1, 1, "t", "", none⟩ ⟨"b", 1492, 1, 1, "t", "", none⟩
    (by decide) (by decide) rfl rfl rfl rfl rfl (by decide)

/-- A maximal-run split: a list is its `takeWhile` run followed by what
remains after dropping that run's length. -/
theorem takeWhile_append_drop_self (p : Char → Bool) :
    ∀ l : List Char, l.takeWhile p ++ l.drop (l.takeWhile p).length = l := by
  intro l
  induction l with
  | nil => rfl
  | cons c t ih =>
    cases hp : p c with
    | true => simp [List.takeWhile_cons, hp, ih]
    | false => simp [List.takeWhile_cons, hp]

/-- When the regex scan of `_priority_from_title` finds a match, the title
really contains a `#<digits>` token in the sense of `contains_hash_token`. -/
theorem contains_of_hashTokenValue_some :
    ∀ (cs : List Char) (n : Int), hashTokenValue cs = some n →
      contains_hash_token cs := by
  intro cs
  induction cs with
  | nil =>
    intro n h
    simp [hashTokenValue] at h
  | cons c rest ih =>
    intro n h
    rw [hashTokenValue] at h
    by_cases hc : c = '#'
    · rw [if_pos hc] at h
      subst hc
      dsimp only at h
      split_ifs at h with hok
      · refine ⟨[], rest.takeWhile pySpace,
          (rest.dropWhile pySpace).takeWhile pyDigit,
          (rest.dropWhile pySpace).drop
            ((rest.dropWhile pySpace).takeWhile pyDigit).length, ?_, ?_, ?_, ?_, ?_⟩
        · rw [List.nil_append, List.append_assoc,
            takeWhile_append_drop_self pyDigit (rest.dropWhile pySpace),
            List.takeWhile_append_dropWhile pySpace rest]
        · intro x hx
          exact List.mem_takeWhile_imp hx
        · simp only [Bool.and_eq_true, Bool.not_eq_true', List.isEmpty_eq_false]
            at hok
          exact hok.1
        · intro x hx
          exact List.mem_takeWhile_imp hx
        · simp only [Bool.and_eq_true] at hok
          rcases hpost : (rest.dropWhile pySpace).drop
              ((rest.dropWhile pySpace).takeWhile pyDigit).length with _ | ⟨p, ps⟩
          · exact trivial
          · have hb := hok.2
            rw [hpost] at hb
            simp only [Bool.not_eq_true'] at hb
            exact hb
      · obtain ⟨pre, sp, ds, post, heq, hparts⟩ := ih n h
        exact ⟨'#' :: pre, sp, ds, post, by rw [List.cons_append, heq], hparts⟩
    · rw [if_neg hc] at h
      obtain ⟨pre, sp, ds, post, heq, hparts⟩ := ih n h
      exact ⟨c :: pre, sp, ds, post, by rw [List.cons_append, heq], hparts⟩

/-- C7 counterexample: the title "Raid #3" does not begin with a
`#<digits>` token (its first character is not `#`), yet its parsed
priority is 3, not the sentinel: `_priority_from_title` searches for the
token anywhere in the title, not only at the start. -/
theorem _priority_from_title_not_leading_only :
    ("Raid #3" : String).toList.head? ≠ some '#' ∧
      _priority_from_title ("Raid #3") = 3 ∧ (3 : Int) ≠ 10000000 := by
  decide

/-- C7 (amended).  The priority is parsed from the first `#<digits>` token
appearing anywhere in the title (not only a leading one): for every title
containing no such token the parsed priority is the sentinel 10,000,000,
and a token appearing only later inside the title does set the priority,
e.g. "Raid #3" parses to priority 3. -/
theorem _priority_from_title_spec :
    (∀ title : String, ¬ contains_hash_token title.toList →
      _priority_from_title title = 10000000) ∧
    _priority_from_title ("Raid #3") = 3 := by
  refine ⟨?_, by decide⟩
  intro title hno
  unfold _priority_from_title
  split_ifs with h0
  · rfl
  · cases hv : hashTokenValue title.toList with
    | none => rfl
    | some n => exact absurd (contains_of_hashTokenValue_some _ n hv) hno

/-- Witness for C7 (amended): a one-character title with no token gets the
sentinel priority. -/
theorem _priority_from_title_spec_witness :
    _priority_from_title ("x") = 10000000 :=
  _priority_from_title_spec.1 ("x") (by
    rintro ⟨pre, sp, ds, post, heq, hsp, hne, hds, hpost⟩
    cases pre with
    | nil =>
      rw [List.nil_append] at heq
      injection heq with h1 h2
      exact absurd h1 (by decide)
    | cons c pre2 =>
      rw [List.cons_append] at heq
      injection heq with h1 h2
      exact absurd h2.symm (by simp))

/-- C8.  Parsing the single-block example text yields exactly one
EventDraft `{1491, 1, 5, "Ambush", "They struck at dawn.", none}` and an
empty error list; the month name "Hammer" resolves case-insensitively to
month 1. -/
theorem parse_session_notes_text_example :
    parse_session_notes_text
        ("[Event]\nyear: 1491\nmonth: Hammer\nday: 5\nTitle: Ambush\nNotes: They struck at dawn.\n[/Event]") =
      ([⟨1491, 1, 5, "Ambush", "They struck at dawn.", none⟩], []) ∧
    parse_month_value ("Hammer") = some 1 ∧
    parse_month_value ("hAmMeR") = some 1 := by
  decide

/-- A line step only ever appends to the shared diagnostics list, and
whenever it raises the fatal flag it appends a diagnostic in the same
step. -/
theorem block_line_step_errors (idx : Nat) (st : BlockState) (line : String) :
    ∃ t, (block_line_step idx st line).errors = st.errors ++ t ∧
      ((block_line_step idx st line).has_fatal_error = st.has_fatal_error ∨
        ((block_line_step idx st line).has_fatal_error = true ∧ t ≠ [])) := by
  unfold block_line_step
  dsimp only
  repeat' split
  all_goals first
    | exact ⟨[], (List.append_nil _).symm, Or.inl rfl⟩
    | exact ⟨_, rfl, Or.inl rfl⟩
    | exact ⟨_, rfl, Or.inr ⟨rfl, List.cons_ne_nil _ _⟩⟩

/-- Through the whole per-line loop, a raised fatal flag comes with at
least one recorded diagnostic. -/
theorem errors_invariant_foldl (idx : Nat) (lines : List String) :
    ∀ st : BlockState, (st.has_fatal_error = true → st.errors ≠ []) →
      ((lines.foldl (block_line_step idx) st).has_fatal_error = true →
        (lines.foldl (block_line_step idx) st).errors ≠ []) := by
  induction lines with
  | nil => exact fun st h => h
  | cons l ls ih =>
    intro st h
    rw [List.foldl_cons]
    apply ih
    intro hf
    obtain ⟨t, he, hd⟩ := block_line_step_errors idx st l
    rcases hd with hd | ⟨_, ht⟩
    · rw [he]
      have hne := h (by rw [← hd]; exact hf)
      intro hcontra
      rcases List.append_eq_nil.mp hcontra with ⟨h1, _⟩
      exact hne h1
    · rw [he]
      intro hcontra
      rcases List.append_eq_nil.mp hcontra with ⟨_, h2⟩
      exact ht h2

/-- A block that was dropped as fatal recorded a diagnostic. -/
theorem process_block_fatal_errors (idx : Nat) (block : String)
    (hf : (process_block idx block).has_fatal_error = true) :
    (process_block idx block).errors ≠ [] := by
  unfold process_block at hf ⊢
  dsimp only at hf ⊢
  exact errors_invariant_foldl idx (splitlinesLF block) init_block_state
    (fun h => absurd h (by decide)) hf

/-- Unrolling the accumulator loop of `parse_session_notes_text` into a
concatenation of per-block results. -/
theorem foldl_pair_append (f : Nat × String → List EventDraft)
    (g : Nat × String → List String) :
    ∀ (ps : List (Nat × String)) (acc : List EventDraft × List String),
      ps.foldl (fun a p => (a.1 ++ f p, a.2 ++ g p)) acc =
        (acc.1 ++ collect f ps, acc.2 ++ collect g ps) := by
  intro ps
  induction ps with
  | nil =>
    intro acc
    simp [collect]
  | cons p ps ih =>
    intro acc
    rw [List.foldl_cons, ih]
    simp [collect, List.append_assoc]

/-- The drafts of `parse_session_notes_text` are the concatenation of the
per-block drafts, one block at a time. -/
theorem parse_fst_eq_collect (text : String)
    (hb : extract_blocks text ≠ []) :
    (parse_session_notes_text text).1 =
      collect (fun p => block_drafts p.1 p.2)
        (List.enumFrom 1 (extract_blocks text)) := by
  unfold parse_session_notes_text
  dsimp only
  rw [if_neg hb, foldl_pair_append]
  simp

/-- The diagnostics of `parse_session_notes_text` are the concatenation of
the per-block diagnostics, one block at a time. -/
theorem parse_snd_eq_collect (text : String)
    (hb : extract_blocks text ≠ []) :
    (parse_session_notes_text text).2 =
      collect (fun p => block_errors p.1 p.2)
        (List.enumFrom 1 (extract_blocks text)) := by
  unfold parse_session_notes_text
  dsimp only
  rw [if_neg hb, foldl_pair_append]
  simp

/-- Membership in a per-element image carries into the concatenation. -/
theorem mem_collect {α β : Type} {f : α → List β} {a : β} {p : α} :
    ∀ {l : List α}, p ∈ l → a ∈ f p → a ∈ collect f l := by
  intro l
  induction l with
  | nil => intro hp; exact absurd hp (by simp)
  | cons q qs ih =>
    intro hp ha
    rcases List.mem_cons.mp hp with rfl | hp2
    · exact List.mem_append.mpr (Or.inl ha)
    · exact List.mem_append.mpr (Or.inr (ih hp2 ha))

/-- C9.  `parse_session_notes_text` processes blocks independently: its
drafts and its diagnostics are the concatenations, block by enumerated
block, of each block's own drafts and diagnostics (so every other
well-formed block still produces its drafts), and an `[Event]` block whose
year, month or day value failed to parse (its fatal flag is raised)
contributes no drafts while always contributing at least one diagnostic. -/
theorem parse_session_notes_blocks_independent (text : String)
    (hb : extract_blocks text ≠ []) :
    (parse_session_notes_text text).1 =
      collect (fun p => block_drafts p.1 p.2)
        (List.enumFrom 1 (extract_blocks text)) ∧
    (parse_session_notes_text text).2 =
      collect (fun p => block_errors p.1 p.2)
        (List.enumFrom 1 (extract_blocks text)) ∧
    (∀ p ∈ List.enumFrom 1 (extract_blocks text),
      (process_block p.1 p.2).has_fatal_error = true →
        block_drafts p.1 p.2 = [] ∧ block_errors p.1 p.2 ≠ []) := by
  refine ⟨parse_fst_eq_collect text hb, parse_snd_eq_collect text hb, ?_⟩
  intro p hp hf
  constructor
  · unfold block_drafts
    dsimp only
    rw [if_pos hf]
  · exact process_block_fatal_errors p.1 p.2 hf

/-- Witness for C9: a text whose first block has an unparseable year and
whose second block is well-formed. -/
theorem parse_session_notes_blocks_independent_witness :
    (parse_session_notes_text
        ("[Event]\nyear: bad\nTitle: A\n[/Event]\n[Event]\nTitle: B\n[/Event]")).1 =
      collect (fun p => block_drafts p.1 p.2)
        (List.enumFrom 1 (extract_blocks
          ("[Event]\nyear: bad\nTitle: A\n[/Event]\n[Event]\nTitle: B\n[/Event]"))) :=
  (parse_session_notes_blocks_independent
    ("[Event]\nyear: bad\nTitle: A\n[/Event]\n[Event]\nTitle: B\n[/Event]")
    (by decide)).1

/-- A line that is not a year/month/day key line leaves the block's date
fields and fatal flag untouched. -/
theorem block_line_step_base (idx : Nat) (st : BlockState) (line : String)
    (hno : is_ymd_key_line line = false) :
    (block_line_step idx st line).base_year = st.base_year ∧
    (block_line_step idx st line).base_month = st.base_month ∧
    (block_line_step idx st line).base_day = st.base_day ∧
    (block_line_step idx st line).has_fatal_error = st.has_fatal_error := by
  unfold block_line_step
  dsimp only
  split
  · exact ⟨rfl, rfl, rfl, rfl⟩
  · split
    · exact ⟨rfl, rfl, rfl, rfl⟩
    · split
      · exact ⟨rfl, rfl, rfl, rfl⟩
      · split
        · rename_i kv heq
          split_ifs with h1 h2 h3 h4
          · exfalso
            unfold is_ymd_key_line at hno
            rw [heq] at hno
            simp [h1] at hno
          · exfalso
            unfold is_ymd_key_line at hno
            rw [heq] at hno
            simp [h2] at hno
          · exfalso
            unfold is_ymd_key_line at hno
            rw [heq] at hno
            simp [h3] at hno
          all_goals first
            | exact ⟨rfl, rfl, rfl, rfl⟩
            | (split <;> exact ⟨rfl, rfl, rfl, rfl⟩)
        · exact ⟨rfl, rfl, rfl, rfl⟩

/-- Through the whole per-line loop of a block with no year/month/day key
lines, the date fields and the fatal flag keep their initial values. -/
theorem foldl_base_preserved (idx : Nat) :
    ∀ (lines : List String) (st : BlockState),
      (∀ l ∈ lines, is_ymd_key_line l = false) →
      ((lines.foldl (block_line_step idx) st).base_year = st.base_year ∧
       (lines.foldl (block_line_step idx) st).base_month = st.base_month ∧
       (lines.foldl (block_line_step idx) st).base_day = st.base_day ∧
       (lines.foldl (block_line_step idx) st).has_fatal_error =
         st.has_fatal_error) := by
  intro lines
  induction lines with
  | nil => exact fun st _ => ⟨rfl, rfl, rfl, rfl⟩
  | cons l ls ih =>
    intro st hall
    rw [List.foldl_cons]
    have hstep := block_line_step_base idx st l (hall l (by simp))
    have hrest := ih (block_line_step idx st l)
      (fun x hx => hall x (List.mem_cons_of_mem l hx))
    exact ⟨hrest.1.trans hstep.1, hrest.2.1.trans hstep.2.1,
      hrest.2.2.1.trans hstep.2.2.1, hrest.2.2.2.trans hstep.2.2.2⟩

/-- C10.  An `[Event]` block containing no year, month or day key lines
produces at least one EventDraft, and every draft it produces is dated
with the fixed default `DEFAULT_CURRENT = {1492, 1, 1}` and appears in the
output of `parse_session_notes_text`. -/
theorem parse_session_notes_default_date (text : String) (idx : Nat)
    (b : String) (hmem : (idx, b) ∈ List.enumFrom 1 (extract_blocks text))
    (hno : ∀ l ∈ splitlinesLF b, is_ymd_key_line l = false) :
    block_drafts idx b ≠ [] ∧
    ∀ dr ∈ block_drafts idx b,
      dr.year = DEFAULT_CURRENT.year ∧ dr.month = DEFAULT_CURRENT.month ∧
        dr.day = DEFAULT_CURRENT.day ∧
        dr ∈ (parse_session_notes_text text).1 := by
  have hbase := foldl_base_preserved idx (splitlinesLF b) init_block_state hno
  have hfatal : (process_block idx b).has_fatal_error = false := by
    unfold process_block
    dsimp only
    exact hbase.2.2.2
  have hy : (process_block idx b).base_year = 1492 := by
    unfold process_block; dsimp only; exact hbase.1
  have hm : (process_block idx b).base_month = 1 := by
    unfold process_block; dsimp only; exact hbase.2.1
  have hd : (process_block idx b).base_day = 1 := by
    unfold process_block; dsimp only; exact hbase.2.2.1
  have hsan : sanitize_harptos_date (process_block idx b).base_year
      (process_block idx b).base_month (process_block idx b).base_day =
      ⟨1492, 1, 1⟩ := by
    rw [hy, hm, hd]
    decide
  have hdr : block_drafts idx b =
      (if (process_block idx b).items = []
        then [⟨UNTITLED, "", (process_block idx b).base_real_world_date⟩]
        else (process_block idx b).items).map
        (fun it => ⟨1492, 1, 1, it.title, it.notes, it.real_world_date⟩) := by
    unfold block_drafts
    dsimp only
    rw [if_neg (by rw [hfatal]; exact Bool.false_ne_true), hsan]
  have hb : extract_blocks text ≠ [] := by
    intro h
    rw [h] at hmem
    exact absurd hmem (by simp)
  constructor
  · rw [hdr]
    split
    · simp
    · rename_i hitems
      intro hcontra
      exact hitems (List.map_eq_nil_iff.mp hcontra)
  · intro dr hdrm
    have hmem2 : dr ∈ (parse_session_notes_text text).1 := by
      rw [parse_fst_eq_collect text hb]
      exact mem_collect hmem hdrm
    rw [hdr] at hdrm
    rcases List.mem_map.mp hdrm with ⟨it, _, rfl⟩
    exact ⟨rfl, rfl, rfl, hmem2⟩

/-- Witness for C10: a block holding only a title line. -/
theorem parse_session_notes_default_date_witness :
    block_drafts 1 ("Title: X") ≠ [] ∧
    ∀ dr ∈ block_drafts 1 ("Title: X"),
      dr.year = DEFAULT_CURRENT.year ∧ dr.month = DEFAULT_CURRENT.month ∧
        dr.day = DEFAULT_CURRENT.day ∧
        dr ∈ (parse_session_notes_text ("[Event]\nTitle: X\n[/Event]")).1 :=
  parse_session_notes_default_date ("[Event]\nTitle: X\n[/Event]") 1
    ("Title: X") (by decide) (by decide)

end Harptos
